import Mathlib

/-!
Verification of the easyprint product agent's query-resolution pipeline.

The definitions below are a shallow embedding of the TypeScript sources:
  * `src/utils/helpers.ts`   — `normalize`, `containsIgnoreCase`
  * `src/services/matcher.ts`— `resolveSynonym`, `findProducts`,
                               `checkColorAvailability`, `recommendSourcing`,
                               `getProductMatches`
  * `src/services/parser.ts` — `fallbackParse`, `fallbackParseMulti`
                               (regexes embedded via a small backtracking
                               matcher, `run`, mirroring JS regex semantics)
  * `src/services/cache.ts`  — `refresh`

JS numbers are embedded as `Int` (all relevant values are integers; `NaN`
and floats do not arise in the modelled code paths).  JS `number | null`
becomes `Option Int`; JS truthiness of such a value is `numTruthy`.
JS strings are Lean `String`s, processed as `List Char`.
-/

namespace EasyPrint

/-! ## Basic string helpers (src/utils/helpers.ts) -/

/-- JS whitespace as used by the code's `\s` (ASCII subset; the inputs the
repository processes contain only these whitespace characters). -/
def isWS (c : Char) : Bool :=
  c == ' ' || c == '\t' || c == '\n' || c == '\r'

/-- `String.prototype.toLowerCase` (ASCII). -/
def lowerList (l : List Char) : List Char :=
  l.map Char.toLower

/-- `String.prototype.trim`: drop leading and trailing whitespace. -/
def trimL (l : List Char) : List Char :=
  ((l.dropWhile isWS).reverse.dropWhile isWS).reverse

/-- `.replace(/\s+/g, ' ')`: collapse every maximal whitespace run to one space. -/
def collapseWS : List Char → List Char
  | [] => []
  | [c] => if isWS c then [' '] else [c]
  | a :: b :: rest =>
    if isWS a && isWS b then collapseWS (b :: rest)
    else (if isWS a then ' ' else a) :: collapseWS (b :: rest)

/-- Does `l` begin with the characters `pre`? -/
def beginsWith : List Char → List Char → Bool
  | [], _ => true
  | _ :: _, [] => false
  | a :: as, b :: bs => a == b && beginsWith as bs

/-- JS `haystack.includes(needle)`: `needle` occurs as a contiguous substring. -/
def jsIncludes (haystack needle : List Char) : Bool :=
  match haystack with
  | [] => needle.isEmpty
  | _ :: rest => beginsWith needle haystack || jsIncludes rest needle

/-- `normalize` from src/utils/helpers.ts:
`value.toLowerCase().trim().replace(/\s+/g, ' ')`. -/
def normalize (s : String) : List Char :=
  collapseWS (trimL (lowerList s.toList))

/-- `containsIgnoreCase` from src/utils/helpers.ts:
`normalize(target).includes(normalize(searchTerm))`. -/
def containsIgnoreCase (target searchTerm : String) : Bool :=
  jsIncludes (normalize target) (normalize searchTerm)

/-! ## Data model (src/types/product.ts) -/

/-- `Product['sourcing']['local']` (the TS field is named `local`, a Lean
keyword, hence `localTier` below). -/
structure LocalSourcing where
  supplier : String
  moq : Option Int
  leadTime : String
  colors : List String
deriving DecidableEq

/-- `Product['sourcing']['china']`. -/
structure ChinaSourcing where
  available : Bool
  moq : Option Int
  air : Bool
  sea : Bool
  colors : String
deriving DecidableEq

/-- `Product['sourcing']`; TS fields `local` / `china` are Lean keywords /
kept parallel, so they are `localTier` / `chinaTier` here. -/
structure SourcingInfo where
  localTier : LocalSourcing
  chinaTier : ChinaSourcing
deriving DecidableEq

/-- `Product` from src/types/product.ts. -/
structure Product where
  name : String
  category : String
  url : String
  otherNames : String
  websiteColors : List String
  sourcing : SourcingInfo
  notes : String
  lastUpdated : String
deriving DecidableEq

/-- `Synonym` from src/types/product.ts. -/
structure Synonym where
  customerSays : String
  weCallIt : String
  notes : String
deriving DecidableEq

/-- The `source` field of `ColorAvailability`: 'website' | 'local' | 'china' | 'any'
(`local` is a Lean keyword, hence `localSupplier`). -/
inductive ColorSource where
  | website
  | localSupplier
  | china
  | any
deriving DecidableEq

/-- `ColorAvailability` from src/types/product.ts (`note?` is an `Option`). -/
structure ColorAvailability where
  available : Bool
  source : ColorSource
  note : Option String
deriving DecidableEq

/-- The `source` field of `SourcingRecommendation`: 'local' | 'china'. -/
inductive SourceLC where
  | localSupplier
  | china
deriving DecidableEq

/-- `SourcingRecommendation` from src/types/product.ts; optional TS fields
become `Option`s. -/
structure SourcingRecommendation where
  source : SourceLC
  supplier : Option String
  moq : Option Int
  leadTime : Option String
  reason : String
deriving DecidableEq

/-- The `colorMatch` triple of `ProductMatch`. -/
structure ColorMatchInfo where
  onWebsite : Bool
  fromLocal : Bool
  fromChina : Bool
deriving DecidableEq

/-- `ProductMatch` from src/types/product.ts. -/
structure ProductMatch where
  product : Product
  colorMatch : ColorMatchInfo
  recommendation : SourcingRecommendation
deriving DecidableEq

/-! ## JS truthiness helpers -/

/-- Truthiness of a JS `number | null`: `null`, `0` (and `NaN`, not modelled)
are falsy. -/
def numTruthy : Option Int → Bool
  | none => false
  | some v => v != 0

/-- Value of a JS `number | null` in a context already guarded by truthiness. -/
def numVal : Option Int → Int
  | none => 0
  | some v => v

/-- `s || undefined` for a TS `string`: the empty string is falsy. -/
def strOrUndefined (s : String) : Option String :=
  if s = "" then none else some s

/-- `n || undefined` for a TS `number | null`: `null` and `0` are falsy. -/
def numOrUndefined (n : Option Int) : Option Int :=
  match n with
  | none => none
  | some v => if v = 0 then none else some v

/-! ## Synonym resolution (src/services/matcher.ts, `resolveSynonym`) -/

/-- `resolveSynonym`: direct match on the normalized term first, then a
partial match (the normalized term *contains* the normalized `customerSays`);
the synonym table is passed explicitly in place of the cache read. -/
def resolveSynonym (synonyms : List Synonym) (term : String) : Option String :=
  let normalizedTerm := normalize term
  match synonyms.find? (fun s => normalize s.customerSays == normalizedTerm) with
  | some s => some s.weCallIt
  | none =>
    match synonyms.find? (fun s => jsIncludes normalizedTerm (normalize s.customerSays)) with
    | some s => some s.weCallIt
    | none => none

/-! ## Product search (src/services/matcher.ts, `findProducts`) -/

/-- `findProducts`: filter by name, category, or the comma-separated
`otherNames` entries (the latter with a symmetric substring test).  The
`if (product.otherNames)` truthiness guard is the `≠ ""` test. -/
def findProducts (products : List Product) (searchTerm : String) : List Product :=
  let normalizedSearch := normalize searchTerm
  products.filter (fun product =>
    containsIgnoreCase product.name searchTerm ||
    containsIgnoreCase product.category searchTerm ||
    (product.otherNames != "" &&
      ((product.otherNames.splitOn ",").map
          (fun n => normalize (String.mk (trimL n.toList)))).any
        (fun n => jsIncludes n normalizedSearch || jsIncludes normalizedSearch n)))

/-! ## Color availability (src/services/matcher.ts, `checkColorAvailability`) -/

/-- The website-tier test of `checkColorAvailability`:
`websiteColors.map(c => c.toLowerCase()).some(c => c.includes(colorLower) || colorLower.includes(c))`. -/
def websiteColorMatch (product : Product) (color : String) : Bool :=
  let colorLower := lowerList color.toList
  (product.websiteColors.map (fun c => lowerList c.toList)).any
    (fun c => jsIncludes c colorLower || jsIncludes colorLower c)

/-- The local-supplier-tier test of `checkColorAvailability`. -/
def localColorMatch (product : Product) (color : String) : Bool :=
  let colorLower := lowerList color.toList
  (product.sourcing.localTier.colors.map (fun c => lowerList c.toList)).any
    (fun c => jsIncludes c colorLower || jsIncludes colorLower c)

/-- The overseas-tier test of `checkColorAvailability`:
`chinaColors.includes('pantone') || chinaColors.includes('any') || chinaColors.includes(colorLower)`
on the lowercased free-text colors descriptor. -/
def chinaColorMatch (product : Product) (color : String) : Bool :=
  jsIncludes (lowerList product.sourcing.chinaTier.colors.toList) "pantone".toList ||
  jsIncludes (lowerList product.sourcing.chinaTier.colors.toList) "any".toList ||
  jsIncludes (lowerList product.sourcing.chinaTier.colors.toList) (lowerList color.toList)

/-- `checkColorAvailability` from src/services/matcher.ts. -/
def checkColorAvailability (product : Product) (requestedColor : Option String) :
    ColorAvailability :=
  match requestedColor with
  | none => ⟨true, ColorSource.any, none⟩
  | some color =>
    if websiteColorMatch product color then ⟨true, ColorSource.website, none⟩
    else if localColorMatch product color then ⟨true, ColorSource.localSupplier, none⟩
    else if chinaColorMatch product color then
      ⟨true, ColorSource.china, some "Custom Pantone color available"⟩
    else ⟨false, ColorSource.any, none⟩

/-! ## Sourcing recommendation (src/services/matcher.ts, `recommendSourcing`) -/

/-- `recommendSourcing` from src/services/matcher.ts.  The guards
`quantity && china.moq && …` are JS truthiness tests, embedded via
`numTruthy`/`numVal`; `x || undefined` on the optional response fields is
`strOrUndefined`/`numOrUndefined`. -/
def recommendSourcing (product : Product) (quantity : Option Int) (urgent : Bool) :
    SourcingRecommendation :=
  let l := product.sourcing.localTier
  let china := product.sourcing.chinaTier
  if !china.available then
    { source := SourceLC.localSupplier
      supplier := strOrUndefined l.supplier
      moq := numOrUndefined l.moq
      leadTime := strOrUndefined l.leadTime
      reason := "China sourcing not available for this product" }
  else if urgent then
    { source := SourceLC.localSupplier
      supplier := strOrUndefined l.supplier
      moq := numOrUndefined l.moq
      leadTime := strOrUndefined l.leadTime
      reason := "Urgent delivery requested - local supplier fastest" }
  else if numTruthy quantity && numTruthy china.moq &&
      decide (numVal quantity < numVal china.moq) then
    { source := SourceLC.localSupplier
      supplier := strOrUndefined l.supplier
      moq := numOrUndefined l.moq
      leadTime := strOrUndefined l.leadTime
      reason := "Quantity " ++ toString (numVal quantity) ++ " below China MOQ (" ++
        toString (numVal china.moq) ++ ")" }
  else if numTruthy quantity && numTruthy china.moq &&
      decide (numVal quantity ≥ numVal china.moq) then
    { source := SourceLC.china
      supplier := none
      moq := china.moq
      leadTime := none
      reason := "Quantity " ++ toString (numVal quantity) ++ " meets China MOQ (" ++
        toString (numVal china.moq) ++ "), better pricing" }
  else
    { source := SourceLC.localSupplier
      supplier := strOrUndefined l.supplier
      moq := numOrUndefined l.moq
      leadTime := strOrUndefined l.leadTime
      reason := "Default to local supplier for standard orders" }

/-! ## Full matching (src/services/matcher.ts, `getProductMatches`) -/

/-- `getProductMatches` from src/services/matcher.ts; the cached catalog is
passed explicitly.  `resolved || searchTerm` is JS truthiness: an empty
resolved name falls back to the search term. -/
def getProductMatches (products : List Product) (synonyms : List Synonym)
    (searchTerm : String) (color : Option String) (quantity : Option Int)
    (urgent : Bool) : List ProductMatch :=
  let resolved := resolveSynonym synonyms searchTerm
  let effectiveSearchTerm :=
    match resolved with
    | some w => if w = "" then searchTerm else w
    | none => searchTerm
  let found := findProducts products effectiveSearchTerm
  found.map (fun product =>
    let ca := checkColorAvailability product color
    { product := product
      colorMatch :=
        { onWebsite := ca.source == ColorSource.website
          fromLocal := ca.source == ColorSource.localSupplier ||
            ca.source == ColorSource.website
          fromChina := product.sourcing.chinaTier.available &&
            (ca.source == ColorSource.china || ca.available) }
      recommendation := recommendSourcing product quantity urgent })

/-! ## Cache refresh (src/services/cache.ts, `refresh`) -/

/-- The mutable state of `CacheService`: the two cached datasets and the
last-refresh timestamp (times as abstract `Nat` instants). -/
structure CacheState where
  products : List Product
  synonyms : List Synonym
  lastRefresh : Option Nat
deriving DecidableEq

/-- The statistics object `refresh` resolves with on success. -/
structure RefreshResult where
  productsLoaded : Nat
  synonymsLoaded : Nat
  refreshTimeMs : Int
deriving DecidableEq

/-- `refresh` from src/services/cache.ts: the joint upstream fetch
(`Promise.all` of `getProducts`/`getSynonyms`) is a parameter; on success all
three fields are replaced and statistics returned, on failure the error is
logged and rethrown (`Except.error`) with the state untouched. -/
def refresh (st : CacheState)
    (fetched : Except String (List Product × List Synonym))
    (startTime now : Nat) : CacheState × Except String RefreshResult :=
  match fetched with
  | Except.ok (products, synonyms) =>
    ({ products := products, synonyms := synonyms, lastRefresh := some now },
     Except.ok ⟨products.length, synonyms.length, (now : Int) - (startTime : Int)⟩)
  | Except.error e => (st, Except.error e)

/-! ## A small backtracking regex matcher

The fallback extractors in src/services/parser.ts (and the copy bundled with
src/services/matcher.ts) are driven by JS regexes.  They are embedded via an
explicit regex AST and a continuation-passing backtracking interpreter `run`
that mirrors JS semantics: leftmost match, alternation tries the left branch
first, `*` is greedy and `*?` lazy, a star whose body matched empty stops
iterating.  `fuel` decreases on every step and is chosen large enough in every
use below. -/

/-- Regex AST: character predicate, end-of-input (`$`), concatenation,
alternation, greedy and lazy star, greedy option (`?`), lookahead (`(?=…)`),
and numbered capture group. -/
inductive RE where
  | eps
  | pred (p : Char → Bool)
  | eol
  | cat (a b : RE)
  | alt (a b : RE)
  | starG (a : RE)
  | starL (a : RE)
  | optG (a : RE)
  | look (a : RE)
  | grp (i : Nat) (a : RE)

/-- Captured groups: group index paired with the captured characters. -/
abbrev Caps := List (Nat × List Char)

/-- A match outcome: remaining input after the match, and the captures. -/
abbrev MRes := List Char × Caps

/-- The backtracking interpreter.  `k` is the success continuation; `orElse`
encodes backtracking between alternatives.  `grp` records the characters the
body consumed (entry length minus exit length).  In the star cases the
re-entry uses the already-decremented fuel. -/
def run : Nat → RE → List Char → Caps → (List Char → Caps → Option MRes) →
    Option MRes
  | 0, _, _, _, _ => none
  | fuel + 1, re, s, caps, k =>
    match re with
    | RE.eps => k s caps
    | RE.pred p =>
      match s with
      | [] => none
      | c :: rest => if p c then k rest caps else none
    | RE.eol =>
      match s with
      | [] => k s caps
      | _ :: _ => none
    | RE.cat a b => run fuel a s caps (fun s' caps' => run fuel b s' caps' k)
    | RE.alt a b => (run fuel a s caps k).orElse (fun _ => run fuel b s caps k)
    | RE.starG a =>
      (run fuel a s caps (fun s' caps' =>
        if s'.length < s.length then run fuel (RE.starG a) s' caps' k
        else k s' caps')).orElse (fun _ => k s caps)
    | RE.starL a =>
      (k s caps).orElse (fun _ =>
        run fuel a s caps (fun s' caps' =>
          if s'.length < s.length then run fuel (RE.starL a) s' caps' k
          else none))
    | RE.optG a => (run fuel a s caps k).orElse (fun _ => k s caps)
    | RE.look a =>
      match run fuel a s caps (fun s' caps' => some (s', caps')) with
      | some (_, caps') => k s caps'
      | none => none
    | RE.grp i a =>
      run fuel a s caps (fun s' caps' =>
        k s' ((i, s.take (s.length - s'.length)) :: caps'))

/-- Read capture group `i` (the most recent write wins). -/
def getCap (i : Nat) (caps : Caps) : Option (List Char) :=
  (caps.find? (fun x => x.1 == i)).map (fun x => x.2)

/-- Top-level success continuation: accept here. -/
def matchK : List Char → Caps → Option MRes := fun s caps => some (s, caps)

/-- `String.prototype.match` (no `g` flag): the match at the leftmost
position where the pattern succeeds. -/
def firstMatch (fuel : Nat) (re : RE) : List Char → Option MRes
  | [] => run fuel re [] [] matchK
  | c :: rest =>
    (run fuel re (c :: rest) [] matchK).orElse (fun _ => firstMatch fuel re rest)

/-- `String.prototype.matchAll`: repeated `firstMatch`, continuing after the
end of each match.  The patterns used below always consume at least one
character, so the `s'.length < s.length` guard never cuts a JS iteration
short (JS would bump `lastIndex` past a zero-length match). -/
def allMatchesAux (fuel : Nat) (re : RE) : Nat → List Char → List Caps
  | 0, _ => []
  | loopFuel + 1, s =>
    match firstMatch fuel re s with
    | none => []
    | some (s', caps) =>
      caps :: (if s'.length < s.length then allMatchesAux fuel re loopFuel s' else [])

/-! ## Regex building blocks for the two fallback-extractor patterns -/

/-- A literal character (case-sensitive). -/
def chCS (c : Char) : RE := RE.pred (fun x => x == c)

/-- A literal character under the `i` flag (ASCII case-insensitive). -/
def chCI (c : Char) : RE := RE.pred (fun x => x.toLower == c)

/-- A case-sensitive literal string. -/
def litCS : List Char → RE
  | [] => RE.eps
  | [c] => chCS c
  | c :: rest => RE.cat (chCS c) (litCS rest)

/-- A case-insensitive literal string (pattern characters lowercase). -/
def litCI : List Char → RE
  | [] => RE.eps
  | [c] => chCI c
  | c :: rest => RE.cat (chCI c) (litCI rest)

/-- `\d`. -/
def digRE : RE := RE.pred Char.isDigit

/-- `\s`. -/
def wsRE : RE := RE.pred isWS

/-- Greedy `+`. -/
def plusG (a : RE) : RE := RE.cat a (RE.starG a)

/-- `pcs?|pieces?|units?|qty` — group 2 of the single-item quantity regex. -/
def unit6 : RE :=
  RE.alt (RE.cat (litCS "pc".toList) (RE.optG (chCS 's')))
  (RE.alt (RE.cat (litCS "piece".toList) (RE.optG (chCS 's')))
  (RE.alt (RE.cat (litCS "unit".toList) (RE.optG (chCS 's')))
    (litCS "qty".toList)))

/-- `/(\d+)\s*(pcs?|pieces?|units?|qty)?/` from `fallbackParse`
(src/services/parser.ts line 76); applied to the lowercased query, so the
case-sensitive literals are exact. -/
def pattern6 : RE :=
  RE.cat (RE.grp 1 (plusG digRE))
    (RE.cat (RE.starG wsRE) (RE.optG (RE.grp 2 unit6)))

/-- `\s+`. -/
def wsPlus : RE := plusG wsRE

/-- `\d{3}`. -/
def d3 : RE := RE.cat digRE (RE.cat digRE digRE)

/-- Greedy `\d{1,3}`: tries three digits, then two, then one. -/
def d1to3 : RE := RE.cat digRE (RE.optG (RE.cat digRE (RE.optG digRE)))

/-- `\d{1,3}(?:,\d{3})*|\d+` — group 1 of the multi-item pattern. -/
def qtyAlt : RE :=
  RE.alt (RE.cat d1to3 (RE.starG (RE.cat (chCS ',') d3))) (plusG digRE)

/-- `pcs?|pieces?|units?` (under the `i` flag). -/
def unit7 : RE :=
  RE.alt (RE.cat (litCI "pc".toList) (RE.optG (chCI 's')))
  (RE.alt (RE.cat (litCI "piece".toList) (RE.optG (chCI 's')))
    (RE.cat (litCI "unit".toList) (RE.optG (chCI 's'))))

/-- `[a-zA-Z]`. -/
def alphaRE : RE :=
  RE.pred (fun c => ('a' ≤ c && c ≤ 'z') || ('A' ≤ c && c ≤ 'Z'))

/-- `[a-zA-Z\s-]`. -/
def alphaWsDash : RE :=
  RE.pred (fun c => ('a' ≤ c && c ≤ 'z') || ('A' ≤ c && c ≤ 'Z') || isWS c || c == '-')

/-- The lookahead `(?=[,;]|\s+and\s+|\s+\d|$|\))`. -/
def lookEnd : RE :=
  RE.look (RE.alt (RE.pred (fun c => c == ',' || c == ';'))
    (RE.alt (RE.cat wsPlus (RE.cat (litCI "and".toList) wsPlus))
    (RE.alt (RE.cat wsPlus digRE)
    (RE.alt RE.eol (RE.pred (fun c => c == ')'))))))

/-- The multi-item pattern from `fallbackParseMulti` (bundled parser source,
`const pattern = /(\d{1,3}(?:,\d{3})*|\d+)\s*(?:pcs?|pieces?|units?)?\s*(?:of\s+)?([a-zA-Z][a-zA-Z\s-]*?)(?=[,;]|\s+and\s+|\s+\d|$|\))/gi`). -/
def pattern7 : RE :=
  RE.cat (RE.grp 1 qtyAlt)
  (RE.cat (RE.starG wsRE)
  (RE.cat (RE.optG unit7)
  (RE.cat (RE.starG wsRE)
  (RE.cat (RE.optG (RE.cat (litCI "of".toList) wsPlus))
  (RE.cat (RE.grp 2 (RE.cat alphaRE (RE.starL alphaWsDash))) lookEnd)))))

/-! ## The deterministic fallback extractors (src/services/parser.ts) -/

/-- `parseInt` on a run of decimal digits. -/
def digitsToNat (ds : List Char) : Nat :=
  ds.foldl (fun n c => n * 10 + (c.toNat - 48)) 0

/-- The same value as a JS number (`Int`). -/
def digitsToInt (ds : List Char) : Int := (digitsToNat ds : Int)

/-- The urgency keyword list of `fallbackParse`/`fallbackParseMulti`. -/
def urgentKeywords : List String :=
  ["urgent", "urgently", "asap", "rush", "quickly", "fast"]

/-- The color list of `fallbackParse`/`fallbackParseMulti`. -/
def colorNames : List String :=
  ["white", "black", "red", "blue", "green", "yellow", "orange", "purple",
   "pink", "brown", "grey", "gray", "silver", "gold", "tan", "navy", "maroon"]

/-- Match `w` (lowercase) case-insensitively at the head of `s`, returning the
rest of `s`. -/
def matchCI : List Char → List Char → Option (List Char)
  | [], s => some s
  | _ :: _, [] => none
  | a :: as, c :: cs => if c.toLower == a then matchCI as cs else none

/-- JS `\w`: `[A-Za-z0-9_]`. -/
def isWordChar (c : Char) : Bool := c.isAlphanum || c == '_'

/-- A `\b` holds after the match iff the next character is not a word
character (or the input ended). -/
def boundaryAfter : List Char → Bool
  | [] => true
  | c :: _ => !isWordChar c

/-- Worker for `removeWordAll`: `prevWord` says whether the previous character
was a word character (so whether `\b` fails before the current position). -/
def removeWordGo (w : List Char) : Nat → Bool → List Char → List Char
  | 0, _, s => s
  | _ + 1, _, [] => []
  | fuel + 1, prevWord, c :: rest =>
    if !prevWord && !w.isEmpty then
      match matchCI w (c :: rest) with
      | some rem =>
        if boundaryAfter rem then removeWordGo w fuel true rem
        else c :: removeWordGo w fuel (isWordChar c) rest
      | none => c :: removeWordGo w fuel (isWordChar c) rest
    else c :: removeWordGo w fuel (isWordChar c) rest

/-- JS `str.replace(new RegExp('\\b' + w + '\\b', 'gi'), '')` for a word `w`
made of letters (the color names): delete every whole-word occurrence,
scanning left to right.  After a deletion the preceding character is the last
letter of `w`, a word character. -/
def removeWordAll (w : List Char) (s : List Char) : List Char :=
  removeWordGo w s.length false s

/-- First alternative (in order) of `ws` matching at the head of `s`; JS
alternation tries alternatives left to right. -/
def firstAltMatch : List (List Char) → List Char → Option (List Char)
  | [], _ => none
  | w :: ws, s =>
    if w.isEmpty then firstAltMatch ws s
    else
      match matchCI w s with
      | some rem => some rem
      | none => firstAltMatch ws s

/-- Worker for `removeAltAll`. -/
def removeAltGo (ws : List (List Char)) : Nat → List Char → List Char
  | 0, s => s
  | _ + 1, [] => []
  | fuel + 1, c :: rest =>
    match firstAltMatch ws (c :: rest) with
    | some rem => removeAltGo ws fuel rem
    | none => c :: removeAltGo ws fuel rest

/-- JS `str.replace(new RegExp(ws.join('|'), 'gi'), '')`: delete every
occurrence of any alternative, left to right, earlier alternatives preferred
(so in `urgent|urgently` the first wins and `ly` survives, as in JS). -/
def removeAltAll (ws : List String) (s : List Char) : List Char :=
  removeAltGo (ws.map String.toList) s.length s

/-- First alternative matching at the head of `s` whose `\b` after the match
also holds (on failure of the boundary, JS alternation tries the next
alternative). -/
def firstAltBnd : List (List Char) → List Char → Option (List Char)
  | [], _ => none
  | w :: ws, s =>
    if w.isEmpty then firstAltBnd ws s
    else
      match matchCI w s with
      | some rem => if boundaryAfter rem then some rem else firstAltBnd ws s
      | none => firstAltBnd ws s

/-- Worker for the `\b(do you have|…)\b` removal. -/
def removeBndGo (ws : List (List Char)) : Nat → Bool → List Char → List Char
  | 0, _, s => s
  | _ + 1, _, [] => []
  | fuel + 1, prevWord, c :: rest =>
    if !prevWord then
      match firstAltBnd ws (c :: rest) with
      | some rem => removeBndGo ws fuel true rem
      | none => c :: removeBndGo ws fuel (isWordChar c) rest
    else c :: removeBndGo ws fuel (isWordChar c) rest

/-- JS `str.replace(/\b(do you have|need|looking for|want|can i get|any)\b/gi, '')`. -/
def removeBndAll (ws : List String) (s : List Char) : List Char :=
  removeBndGo (ws.map String.toList) s.length false s

/-- The unit alternatives of `/\d+\s*(pcs?|pieces?|units?|qty)?/` expanded in
JS backtracking order (`pcs?` tries the `s` first, and so on). -/
def unitAlts6 : List (List Char) :=
  ["pcs", "pc", "pieces", "piece", "units", "unit", "qty"].map String.toList

/-- JS `str.replace(/\d+\s*(pcs?|pieces?|units?|qty)?/g, '')`: at each digit,
delete the maximal digit run, then maximal whitespace, then one unit token if
present (everything after the digits is optional and cannot fail, so the
greedy components take their maximal munch). -/
def stripQtyGo : Nat → List Char → List Char
  | 0, s => s
  | _ + 1, [] => []
  | fuel + 1, c :: rest =>
    if c.isDigit then
      let afterD := (c :: rest).dropWhile Char.isDigit
      let afterWS := afterD.dropWhile isWS
      let afterU :=
        match firstAltMatch unitAlts6 afterWS with
        | some rem => rem
        | none => afterWS
      stripQtyGo fuel afterU
    else c :: stripQtyGo fuel rest

/-- JS `str.replace(/[?!.,]+/g, '')`: delete those characters. -/
def stripPunct (s : List Char) : List Char :=
  s.filter (fun c => !(c == '?' || c == '!' || c == '.' || c == ','))

/-- `ParsedQueryItem` (src/types/api.ts, per its uses in the parser): the
structured extraction of one product mention. -/
structure ParsedQueryItem where
  productType : String
  color : Option String
  quantity : Option Int
  urgent : Bool
deriving DecidableEq

/-- `MultiParsedQuery`. -/
structure MultiParsedQuery where
  items : List ParsedQueryItem
  globalUrgent : Bool
deriving DecidableEq

/-- `fallbackParse` from src/services/parser.ts: deterministic single-item
extraction (quantity from the first `pattern6` match, urgency and color by
substring scan, product type by the replacement chain). -/
def fallbackParse (query : String) : ParsedQueryItem :=
  let lowerQuery := lowerList query.toList
  let quantityMatch := firstMatch (lowerQuery.length + 10) pattern6 lowerQuery
  let quantity : Option Int :=
    match quantityMatch with
    | some r => (getCap 1 r.2).map digitsToInt
    | none => none
  let urgent := urgentKeywords.any (fun kw => jsIncludes lowerQuery kw.toList)
  let foundColor := colorNames.find? (fun c => jsIncludes lowerQuery c.toList)
  let pt1 := stripQtyGo lowerQuery.length lowerQuery
  let pt2 := removeAltAll urgentKeywords pt1
  let pt3 := removeAltAll colorNames pt2
  let pt4 := removeBndAll ["do you have", "need", "looking for", "want", "can i get", "any"] pt3
  let pt5 := trimL (collapseWS pt4)
  let pt6 := trimL (stripPunct pt5)
  { productType := if pt6.isEmpty then query else String.mk pt6
    color := foundColor
    quantity := quantity
    urgent := urgent }

/-- The per-match body of the `for (const match of matches)` loop in
`fallbackParseMulti`: `none` models `continue` / not pushing. -/
def processMatch (globalUrgent : Bool) (caps : Caps) : Option ParsedQueryItem :=
  let m1 := (getCap 1 caps).getD []
  let m2 := (getCap 2 caps).getD []
  let quantity : Int := digitsToInt (m1.filter (fun c => !(c == ',')))
  let pt0 := trimL m2
  if pt0.length < 2 then none
  else
    let colorFound := colorNames.find? (fun col => jsIncludes (lowerList pt0) col.toList)
    let pt1 :=
      match colorFound with
      | some col => trimL (removeWordAll col.toList pt0)
      | none => pt0
    let pt2 := trimL (collapseWS pt1)
    if pt2.length > 0 then
      some { productType := String.mk pt2
             color := colorFound
             quantity := if quantity > 0 then some quantity else none
             urgent := globalUrgent }
    else none

/-- `fallbackParseMulti` from the bundled parser source: segment the raw query
with `pattern7` via `matchAll`, process each match, and fall back to the
single-item extractor when no items survive. -/
def fallbackParseMulti (query : String) : MultiParsedQuery :=
  let lowerQuery := lowerList query.toList
  let globalUrgent := urgentKeywords.any (fun kw => jsIncludes lowerQuery kw.toList)
  let qchars := query.toList
  let ms := allMatchesAux (qchars.length * 40 + 80) pattern7 (qchars.length + 1) qchars
  let items := ms.filterMap (processMatch globalUrgent)
  if items.isEmpty then
    { items := [fallbackParse query], globalUrgent := globalUrgent }
  else { items := items, globalUrgent := globalUrgent }

/-! ## Generic list lemmas -/

/-- `find?` returns `some a` exactly when the list splits as
`l₁ ++ a :: l₂` with `a` satisfying `p` and everything before it failing. -/
theorem find?_eq_some_split {α : Type} (p : α → Bool) (l : List α) (a : α) :
    l.find? p = some a ↔
      p a = true ∧ ∃ l₁ l₂, l = l₁ ++ a :: l₂ ∧ ∀ x ∈ l₁, p x = false := by
  induction l with
  | nil => simp
  | cons b t ih =>
    cases hb : p b with
    | true =>
      rw [List.find?_cons_of_pos t hb]
      constructor
      · intro h
        obtain rfl : b = a := by simpa using h
        exact ⟨hb, [], t, rfl, by simp⟩
      · rintro ⟨hpa, l₁, l₂, heq, hall⟩
        cases l₁ with
        | nil =>
          simp only [List.nil_append, List.cons.injEq] at heq
          rw [heq.1]
        | cons x l₁' =>
          simp only [List.cons_append, List.cons.injEq] at heq
          have hfx := hall x (List.mem_cons_self x l₁')
          rw [← heq.1, hb] at hfx
          cases hfx
    | false =>
      rw [List.find?_cons_of_neg t (by simp [hb])]
      rw [ih]
      constructor
      · rintro ⟨hpa, l₁, l₂, rfl, hall⟩
        refine ⟨hpa, b :: l₁, l₂, rfl, ?_⟩
        intro x hx
        rcases List.mem_cons.mp hx with rfl | hx'
        · exact hb
        · exact hall x hx'
      · rintro ⟨hpa, l₁, l₂, heq, hall⟩
        cases l₁ with
        | nil =>
          simp only [List.nil_append, List.cons.injEq] at heq
          rw [heq.1] at hb
          rw [hpa] at hb
          cases hb
        | cons x l₁' =>
          simp only [List.cons_append, List.cons.injEq] at heq
          refine ⟨hpa, l₁', l₂, heq.2, ?_⟩
          intro y hy
          exact hall y (List.mem_cons_of_mem x hy)

/-- Two decompositions of the same list at its *first* element satisfying `P`
agree on that element. -/
theorem first_split_unique {α : Type} {P : α → Prop} :
    ∀ {l pre post pre' post' : List α} {a a' : α},
      l = pre ++ a :: post → l = pre' ++ a' :: post' →
      P a → P a' →
      (∀ x ∈ pre, ¬P x) → (∀ x ∈ pre', ¬P x) → a = a'
  | l, [], post, [], post', a, a', h, h', _, _, _, _ => by
    rw [h] at h'
    simp only [List.nil_append, List.cons.injEq] at h'
    exact h'.1
  | l, [], post, x' :: pre', post', a, a', h, h', ha, _, _, hpre' => by
    rw [h] at h'
    simp only [List.nil_append, List.cons_append, List.cons.injEq] at h'
    exact absurd (h'.1 ▸ ha) (hpre' x' (List.mem_cons_self x' pre'))
  | l, x :: pre, post, [], post', a, a', h, h', _, ha', hpre, _ => by
    rw [h] at h'
    simp only [List.cons_append, List.nil_append, List.cons.injEq] at h'
    exact absurd (h'.1.symm ▸ ha') (hpre x (List.mem_cons_self x pre))
  | l, x :: pre, post, x' :: pre', post', a, a', h, h', ha, ha', hpre, hpre' => by
    rw [h] at h'
    simp only [List.cons_append, List.cons.injEq] at h'
    exact first_split_unique (l := pre ++ a :: post) rfl h'.2 ha ha'
      (fun y hy => hpre y (List.mem_cons_of_mem x hy))
      (fun y hy => hpre' y (List.mem_cons_of_mem x' hy))

/-! ## Concrete fixtures used by witnesses and counterexamples -/

/-- A product without an overseas tier, whose website stocks Black. -/
def mugProduct : Product :=
  { name := "Mug", category := "Drinkware", url := "", otherNames := ""
    websiteColors := ["Black"]
    sourcing :=
      ⟨{ supplier := "Supplies Co", moq := some 50, leadTime := "3 days", colors := ["Black"] },
       { available := false, moq := none, air := false, sea := false, colors := "" }⟩
    notes := "", lastUpdated := "" }

/-- A product whose overseas tier exists but has `moq = 0`. -/
def stickerProduct : Product :=
  { name := "Sticker", category := "Print", url := "", otherNames := ""
    websiteColors := []
    sourcing :=
      ⟨{ supplier := "Local Co", moq := some 20, leadTime := "5 days", colors := [] },
       { available := true, moq := some 0, air := true, sea := true, colors := "any" }⟩
    notes := "", lastUpdated := "" }

/-- A product with an overseas tier at MOQ 1000. -/
def penProduct : Product :=
  { name := "Pen", category := "Stationery", url := "", otherNames := ""
    websiteColors := ["Blue"]
    sourcing :=
      ⟨{ supplier := "Pen Co", moq := some 100, leadTime := "4 days", colors := ["Blue"] },
       { available := true, moq := some 1000, air := true, sea := true, colors := "Any Pantone" }⟩
    notes := "", lastUpdated := "" }

/-- Overseas colors descriptor "many colors": no `pantone`, no whole word
`any`, yet `any` occurs as a substring of "many". -/
def capProduct : Product :=
  { name := "Cap", category := "Headwear", url := "", otherNames := ""
    websiteColors := []
    sourcing :=
      ⟨{ supplier := "Cap Co", moq := none, leadTime := "", colors := [] },
       { available := true, moq := some 500, air := true, sea := false, colors := "many colors" }⟩
    notes := "", lastUpdated := "" }

/-- Overseas colors descriptor enumerating literal colors only. -/
def bagProduct : Product :=
  { name := "Bag", category := "Bags", url := "", otherNames := ""
    websiteColors := []
    sourcing :=
      ⟨{ supplier := "Bag Co", moq := none, leadTime := "", colors := [] },
       { available := true, moq := some 300, air := false, sea := true, colors := "red, blue" }⟩
    notes := "", lastUpdated := "" }

/-- A product whose overseas tier is marked unavailable while its colors
descriptor still says "Any Pantone". -/
def lanyardProduct : Product :=
  { name := "Lanyard", category := "Accessories", url := "", otherNames := ""
    websiteColors := ["Black"]
    sourcing :=
      ⟨{ supplier := "Lan Co", moq := some 50, leadTime := "2 days", colors := [] },
       { available := false, moq := some 500, air := false, sea := false, colors := "Any Pantone" }⟩
    notes := "", lastUpdated := "" }

/-! ## Claim theorems -/

/-- C1.  Urgency override: for every product and every quantity (known or
unknown), `recommendSourcing` with `urgent = true` recommends the local
source — whether or not the overseas tier exists, whatever its MOQ, and no
matter how the non-urgent call would resolve. -/
theorem recommendSourcing_urgent_local (p : Product) (quantity : Option Int) :
    (recommendSourcing p quantity true).source = SourceLC.localSupplier := by
  by_cases h : p.sourcing.chinaTier.available <;> simp [recommendSourcing, h]

/-- C2 counterexample.  With the overseas tier available and a known
`moq = M = 0`, the claim demands `recommendSourcing(P, M, false)` choose
china, but the JS truthiness guard (`quantity && china.moq && …`) treats
`0` as unknown and the code recommends the local source. -/
theorem recommendSourcing_moq_boundary_cex :
    stickerProduct.sourcing.chinaTier.available = true ∧
    stickerProduct.sourcing.chinaTier.moq = some 0 ∧
    (recommendSourcing stickerProduct (some 0) false).source = SourceLC.localSupplier := by
  refine ⟨rfl, rfl, ?_⟩
  decide

/-- C2 as amended.  For `M ≥ 1` the boundary behaves as claimed: one below
the overseas MOQ stays local, exactly the MOQ goes overseas. -/
theorem recommendSourcing_moq_boundary (p : Product) (M : Int)
    (hav : p.sourcing.chinaTier.available = true)
    (hmoq : p.sourcing.chinaTier.moq = some M) (hM : 1 ≤ M) :
    (recommendSourcing p (some (M - 1)) false).source = SourceLC.localSupplier ∧
    (recommendSourcing p (some M) false).source = SourceLC.china := by
  have hMne : (M != 0) = true := by simp; omega
  constructor
  · by_cases h1 : M = 1
    · subst h1
      simp [recommendSourcing, hav, hmoq, numTruthy, numVal]
    · have hne : (M - 1 != 0) = true := by simp; omega
      simp [recommendSourcing, hav, hmoq, numTruthy, numVal, hne, hMne]
  · simp [recommendSourcing, hav, hmoq, numTruthy, numVal, hMne]

/-- C2 witness: the amended boundary at the concrete overseas MOQ 1000. -/
theorem recommendSourcing_moq_boundary_witness :
    (recommendSourcing penProduct (some (1000 - 1)) false).source = SourceLC.localSupplier ∧
    (recommendSourcing penProduct (some 1000) false).source = SourceLC.china :=
  recommendSourcing_moq_boundary penProduct 1000 rfl rfl (by norm_num)

/-- C4 counterexample.  "premium lanyard" is a `weCallIt` that appears as no
row's `customerSays` (row: `lanyard → premium lanyard`), yet resolution does
not return `null`: the partial-match stage fires because the term *contains*
the synonym "lanyard". -/
theorem resolveSynonym_canonical_cex :
    ("lanyard" : String) ≠ "premium lanyard" ∧
    normalize "lanyard" ≠ normalize "premium lanyard" ∧
    resolveSynonym [⟨"lanyard", "premium lanyard", ""⟩] "premium lanyard" =
      some "premium lanyard" := by
  refine ⟨by decide, by decide, by decide⟩

/-- C4 as amended.  If a row's `weCallIt`, after normalization, neither
equals nor contains (as a substring) any row's normalized `customerSays`,
then resolving it returns `null`. -/
theorem resolveSynonym_canonical_null (synonyms : List Synonym) (r : Synonym)
    (_hmem : r ∈ synonyms)
    (hne : ∀ s ∈ synonyms, normalize s.customerSays ≠ normalize r.weCallIt)
    (hni : ∀ s ∈ synonyms,
      jsIncludes (normalize r.weCallIt) (normalize s.customerSays) = false) :
    resolveSynonym synonyms r.weCallIt = none := by
  simp only [resolveSynonym]
  have h1 : synonyms.find?
      (fun s => normalize s.customerSays == normalize r.weCallIt) = none := by
    refine List.find?_eq_none.mpr (fun x hx => ?_)
    simp only [beq_iff_eq]
    exact fun h => hne x hx (by simpa using h)
  have h2 : synonyms.find?
      (fun s => jsIncludes (normalize r.weCallIt) (normalize s.customerSays)) = none := by
    refine List.find?_eq_none.mpr (fun x hx => ?_)
    simp [hni x hx]
  rw [h1, h2]

/-- C4 witness: `Cup` is the canonical side of `mug → Cup` and contains no
row's `customerSays`; resolving it yields `null`. -/
theorem resolveSynonym_canonical_null_witness :
    resolveSynonym [⟨"mug", "Cup", ""⟩] (Synonym.weCallIt ⟨"mug", "Cup", ""⟩) = none :=
  resolveSynonym_canonical_null [⟨"mug", "Cup", ""⟩] ⟨"mug", "Cup", ""⟩
    (by decide) (by decide) (by decide)

/-- C8.  A failed refresh (the joint upstream fetch rejects) leaves the
cached products, synonyms and last-refresh timestamp exactly as they were,
and propagates the error to the caller. -/
theorem refresh_failure_preserves_state (st : CacheState) (e : String)
    (startTime now : Nat) :
    (refresh st (Except.error e) startTime now).1.products = st.products ∧
    (refresh st (Except.error e) startTime now).1.synonyms = st.synonyms ∧
    (refresh st (Except.error e) startTime now).1.lastRefresh = st.lastRefresh ∧
    (refresh st (Except.error e) startTime now).2 = Except.error e :=
  ⟨rfl, rfl, rfl, rfl⟩

/-- C9.  Every `ProductMatch` built by `getProductMatches` satisfies
`colorMatch.onWebsite → colorMatch.fromLocal`: `fromLocal` is defined as
"source is local or website". -/
theorem colorMatch_onWebsite_fromLocal (products : List Product)
    (synonyms : List Synonym) (searchTerm : String) (color : Option String)
    (quantity : Option Int) (urgent : Bool) (m : ProductMatch)
    (hm : m ∈ getProductMatches products synonyms searchTerm color quantity urgent) :
    m.colorMatch.onWebsite = true → m.colorMatch.fromLocal = true := by
  simp only [getProductMatches, List.mem_map] at hm
  obtain ⟨p, -, rfl⟩ := hm
  intro h
  simp only at h ⊢
  simp [h]

/-- C9 witness: a concrete search whose single match has the color on the
website tier. -/
theorem colorMatch_onWebsite_fromLocal_witness :
    ({ product := mugProduct
       colorMatch := { onWebsite := true, fromLocal := true, fromChina := false }
       recommendation :=
         { source := SourceLC.localSupplier, supplier := some "Supplies Co"
           moq := some 50, leadTime := some "3 days"
           reason := "China sourcing not available for this product" } } :
      ProductMatch).colorMatch.fromLocal = true :=
  colorMatch_onWebsite_fromLocal [mugProduct] [] "mug" (some "black") none false _
    (by decide) (by decide)

/-- C10.  `checkColorAvailability` never consults `sourcing.china.available`:
whenever the overseas colors descriptor advertises "pantone" or "any" and the
requested color matched neither the website nor the local tier, the result is
`{available: true, source: 'china'}` (with the code's note) for *every* value
of the `available` flag — including `false`. -/
theorem checkColorAvailability_ignores_china_available (p : Product) (c : String)
    (hgen : jsIncludes (lowerList p.sourcing.chinaTier.colors.toList) "pantone".toList = true ∨
      jsIncludes (lowerList p.sourcing.chinaTier.colors.toList) "any".toList = true)
    (hw : websiteColorMatch p c = false) (hl : localColorMatch p c = false) :
    checkColorAvailability p (some c) =
      ⟨true, ColorSource.china, some "Custom Pantone color available"⟩ := by
  have hcm : chinaColorMatch p c = true := by
    unfold chinaColorMatch
    rcases hgen with h | h
    · rw [h]; simp
    · rw [h]; simp
  simp [checkColorAvailability, hw, hl, hcm]

/-- C10 witness: `lanyardProduct` has `china.available = false`, yet the
overseas "Any Pantone" capability answers for the unmatched color white. -/
theorem checkColorAvailability_ignores_china_available_witness :
    checkColorAvailability lanyardProduct (some "white") =
      ⟨true, ColorSource.china, some "Custom Pantone color available"⟩ :=
  checkColorAvailability_ignores_china_available lanyardProduct "white"
    (Or.inr (by decide)) (by decide) (by decide)

/-- Split a string into its maximal alphabetic tokens (`acc` holds the
current token reversed). -/
def letterTokensGo : List Char → List Char → List (List Char)
  | acc, [] => if acc.isEmpty then [] else [acc.reverse]
  | acc, c :: rest =>
    if c.isAlpha then letterTokensGo (c :: acc) rest
    else if acc.isEmpty then letterTokensGo [] rest
    else acc.reverse :: letterTokensGo [] rest

/-- Modelled from the spec: §4.5 requires the overseas descriptor to contain
"pantone" or *the word* "any"; this is the spec-side word test — `any` as a
whole alphabetic token — used to exhibit where the code (a plain substring
test) departs from it. -/
def specWordAny (s : List Char) : Bool :=
  (letterTokensGo [] s).any (fun t => t == "any".toList)

/-- C5 counterexample, two parts.

First: the descriptor "many colors" has neither "pantone" nor the *word*
"any" nor the requested color "zzz", so the claim demands
`{available: false, source: 'any'}` — but the code's substring test finds
`any` inside "many" and reports the overseas tier (with its note).

Second: the descriptor "red, blue" matches the requested color "red" only
*literally*, so the claim demands no note — but the code attaches its note
(text "Custom Pantone color available", not the claim's wording) on every
overseas match. -/
theorem checkColorAvailability_overseas_cex :
    (specWordAny (lowerList "many colors".toList) = false ∧
     jsIncludes (lowerList "many colors".toList) "pantone".toList = false ∧
     jsIncludes (lowerList "many colors".toList) "zzz".toList = false ∧
     checkColorAvailability capProduct (some "zzz") =
       ⟨true, ColorSource.china, some "Custom Pantone color available"⟩) ∧
    (jsIncludes (lowerList "red, blue".toList) "pantone".toList = false ∧
     jsIncludes (lowerList "red, blue".toList) "any".toList = false ∧
     jsIncludes (lowerList "red, blue".toList) (lowerList "red".toList) = true ∧
     checkColorAvailability bagProduct (some "red") =
       ⟨true, ColorSource.china, some "Custom Pantone color available"⟩) := by
  decide

/-- C5 as amended.  For a color matching neither the website nor the local
tier, the overseas tier answers exactly when the lowercased descriptor
contains "pantone" or "any" or the lowercased color *as substrings*, and in
every such case the note "Custom Pantone color available" is attached;
otherwise the result is `{available: false, source: 'any'}`. -/
theorem checkColorAvailability_overseas (p : Product) (c : String)
    (hw : websiteColorMatch p c = false) (hl : localColorMatch p c = false) :
    checkColorAvailability p (some c) =
      if jsIncludes (lowerList p.sourcing.chinaTier.colors.toList) "pantone".toList ||
         jsIncludes (lowerList p.sourcing.chinaTier.colors.toList) "any".toList ||
         jsIncludes (lowerList p.sourcing.chinaTier.colors.toList) (lowerList c.toList)
      then ⟨true, ColorSource.china, some "Custom Pantone color available"⟩
      else ⟨false, ColorSource.any, none⟩ := by
  have hrw : checkColorAvailability p (some c) =
      if chinaColorMatch p c then ⟨true, ColorSource.china, some "Custom Pantone color available"⟩
      else ⟨false, ColorSource.any, none⟩ := by
    simp [checkColorAvailability, hw, hl]
  rw [hrw]
  rfl

/-- C5 witness: white on `penProduct` (website/local stock only Blue) is
served by the overseas "Any Pantone" capability, note attached. -/
theorem checkColorAvailability_overseas_witness :
    checkColorAvailability penProduct (some "white") =
      ⟨true, ColorSource.china, some "Custom Pantone color available"⟩ := by
  have h := checkColorAvailability_overseas penProduct "white" (by decide) (by decide)
  rw [h]
  decide

/-- C3.  Synonym resolution order: `resolve` returns the `weCallIt` of the
first row (in load order) whose normalized `customerSays` equals the
normalized term; failing that, of the first row whose normalized
`customerSays` is a substring of the normalized term (only in that
direction); failing both, `null`. -/
theorem resolveSynonym_resolution_order (synonyms : List Synonym) (term : String) :
    (∀ w, resolveSynonym synonyms term = some w ↔
      ((∃ pre s post, synonyms = pre ++ s :: post ∧
          normalize s.customerSays = normalize term ∧ w = s.weCallIt ∧
          ∀ r ∈ pre, normalize r.customerSays ≠ normalize term) ∨
       ((∀ r ∈ synonyms, normalize r.customerSays ≠ normalize term) ∧
        ∃ pre s post, synonyms = pre ++ s :: post ∧
          jsIncludes (normalize term) (normalize s.customerSays) = true ∧
          w = s.weCallIt ∧
          ∀ r ∈ pre, jsIncludes (normalize term) (normalize r.customerSays) = false))) ∧
    (resolveSynonym synonyms term = none ↔
      ∀ r ∈ synonyms, normalize r.customerSays ≠ normalize term ∧
        jsIncludes (normalize term) (normalize r.customerSays) = false) := by
  have hform : resolveSynonym synonyms term =
      (match synonyms.find? (fun s => normalize s.customerSays == normalize term) with
       | some s => some s.weCallIt
       | none =>
         match synonyms.find?
             (fun s => jsIncludes (normalize term) (normalize s.customerSays)) with
         | some s => some s.weCallIt
         | none => none) := rfl
  cases hd : synonyms.find? (fun s => normalize s.customerSays == normalize term) with
  | some s =>
    obtain ⟨hps, pre, post, heq, hall⟩ :=
      (find?_eq_some_split _ synonyms s).mp hd
    have hps' : normalize s.customerSays = normalize term := by simpa using hps
    have hall' : ∀ r ∈ pre, normalize r.customerSays ≠ normalize term := by
      intro r hr
      simpa using hall r hr
    have hsmem : s ∈ synonyms := by
      rw [heq]; simp
    have hval : resolveSynonym synonyms term = some s.weCallIt := by
      rw [hform, hd]
    constructor
    · intro w
      rw [hval]
      constructor
      · intro hw
        obtain rfl : s.weCallIt = w := by simpa using hw
        exact Or.inl ⟨pre, s, post, heq, hps', rfl, hall'⟩
      · rintro (⟨pre', s', post', heq', hs', hw', hall''⟩ | ⟨hnone, -⟩)
        · have hss : s = s' :=
            first_split_unique (P := fun r => normalize r.customerSays = normalize term)
              heq heq' hps' hs' hall' hall''
          rw [hw', ← hss]
        · exact absurd hps' (hnone s hsmem)
    · rw [hval]
      constructor
      · intro h
        cases h
      · intro hforall
        exact absurd hps' (hforall s hsmem).1
  | none =>
    have hdne : ∀ r ∈ synonyms, normalize r.customerSays ≠ normalize term := by
      intro r hr h
      exact List.find?_eq_none.mp hd r hr (by simpa using h)
    cases hp : synonyms.find?
        (fun s => jsIncludes (normalize term) (normalize s.customerSays)) with
    | some s =>
      obtain ⟨hps, pre, post, heq, hall⟩ :=
        (find?_eq_some_split _ synonyms s).mp hp
      have hsmem : s ∈ synonyms := by
        rw [heq]; simp
      have hval : resolveSynonym synonyms term = some s.weCallIt := by
        rw [hform, hd, hp]
      constructor
      · intro w
        rw [hval]
        constructor
        · intro hw
          obtain rfl : s.weCallIt = w := by simpa using hw
          exact Or.inr ⟨hdne, pre, s, post, heq, hps, rfl, hall⟩
        · rintro (⟨pre', s', post', heq', hs', hw', hall''⟩ | ⟨-, pre', s', post', heq', hs', hw', hall''⟩)
          · exact absurd hs' (hdne s' (by rw [heq']; simp))
          · have hss : s = s' :=
              first_split_unique
                (P := fun r => jsIncludes (normalize term) (normalize r.customerSays) = true)
                heq heq' hps hs'
                (fun x hx => by simp [hall x hx])
                (fun x hx => by simp [hall'' x hx])
            rw [hw', ← hss]
      · rw [hval]
        constructor
        · intro h
          cases h
        · intro hforall
          exact absurd hps (by simp [(hforall s hsmem).2])
    | none =>
      have hpfalse : ∀ r ∈ synonyms,
          jsIncludes (normalize term) (normalize r.customerSays) = false := by
        intro r hr
        have := List.find?_eq_none.mp hp r hr
        simpa using this
      have hval : resolveSynonym synonyms term = none := by
        rw [hform, hd, hp]
      constructor
      · intro w
        rw [hval]
        constructor
        · intro h
          cases h
        · rintro (⟨pre', s', post', heq', hs', -, -⟩ | ⟨-, pre', s', post', heq', hs', -, -⟩)
          · exact absurd hs' (hdne s' (by rw [heq']; simp))
          · have := hpfalse s' (by rw [heq']; simp)
            rw [this] at hs'
            cases hs'
      · rw [hval]
        constructor
        · intro _
          exact fun r hr => ⟨hdne r hr, hpfalse r hr⟩
        · intro _
          rfl

/-- C3 witness: an exact-match resolution obtained through the
characterization. -/
theorem resolveSynonym_resolution_order_witness :
    resolveSynonym [⟨"badge case", "Card Holder", ""⟩] "badge case" =
      some "Card Holder" :=
  ((resolveSynonym_resolution_order [⟨"badge case", "Card Holder", ""⟩] "badge case").1
      "Card Holder").mpr
    (Or.inl ⟨[], ⟨"badge case", "Card Holder", ""⟩, [], rfl, by decide, rfl, by simp⟩)

/-! ## Facts about the regex interpreter

Unfolding equations for `run` (one per constructor, at successor fuel), a
capture-preservation lemma, and the exact behaviour of the single-item
quantity pattern `pattern6`: at a non-digit position it fails, at a digit
position it succeeds with group 1 capturing the maximal digit run (everything
after group 1 in the pattern is optional, so the greedy digit run is never
backtracked). -/

lemma run_cat (fuel : Nat) (a b : RE) (s : List Char) (caps : Caps)
    (k : List Char → Caps → Option MRes) :
    run (fuel + 1) (RE.cat a b) s caps k =
      run fuel a s caps (fun s' caps' => run fuel b s' caps' k) := rfl

lemma run_grp (fuel : Nat) (i : Nat) (a : RE) (s : List Char) (caps : Caps)
    (k : List Char → Caps → Option MRes) :
    run (fuel + 1) (RE.grp i a) s caps k =
      run fuel a s caps (fun s' caps' =>
        k s' ((i, s.take (s.length - s'.length)) :: caps')) := rfl

lemma run_pred (fuel : Nat) (p : Char → Bool) (s : List Char) (caps : Caps)
    (k : List Char → Caps → Option MRes) :
    run (fuel + 1) (RE.pred p) s caps k =
      (match s with
       | [] => none
       | c :: rest => if p c then k rest caps else none) := rfl

lemma run_starG (fuel : Nat) (a : RE) (s : List Char) (caps : Caps)
    (k : List Char → Caps → Option MRes) :
    run (fuel + 1) (RE.starG a) s caps k =
      (run fuel a s caps (fun s' caps' =>
        if s'.length < s.length then run fuel (RE.starG a) s' caps' k
        else k s' caps')).orElse (fun _ => k s caps) := rfl

lemma run_optG (fuel : Nat) (a : RE) (s : List Char) (caps : Caps)
    (k : List Char → Caps → Option MRes) :
    run (fuel + 1) (RE.optG a) s caps k =
      (run fuel a s caps k).orElse (fun _ => k s caps) := rfl

lemma run_alt (fuel : Nat) (a b : RE) (s : List Char) (caps : Caps)
    (k : List Char → Caps → Option MRes) :
    run (fuel + 1) (RE.alt a b) s caps k =
      (run fuel a s caps k).orElse (fun _ => run fuel b s caps k) := rfl

lemma run_starL (fuel : Nat) (a : RE) (s : List Char) (caps : Caps)
    (k : List Char → Caps → Option MRes) :
    run (fuel + 1) (RE.starL a) s caps k =
      (k s caps).orElse (fun _ =>
        run fuel a s caps (fun s' caps' =>
          if s'.length < s.length then run fuel (RE.starL a) s' caps' k
          else none)) := rfl

lemma run_look (fuel : Nat) (a : RE) (s : List Char) (caps : Caps)
    (k : List Char → Caps → Option MRes) :
    run (fuel + 1) (RE.look a) s caps k =
      (match run fuel a s caps (fun s' caps' => some (s', caps')) with
       | some (_, caps') => k s caps'
       | none => none) := rfl

lemma run_eps (fuel : Nat) (s : List Char) (caps : Caps)
    (k : List Char → Caps → Option MRes) :
    run (fuel + 1) RE.eps s caps k = k s caps := rfl

lemma run_eol (fuel : Nat) (s : List Char) (caps : Caps)
    (k : List Char → Caps → Option MRes) :
    run (fuel + 1) RE.eol s caps k =
      (match s with
       | [] => k s caps
       | _ :: _ => none) := rfl

lemma run_zero (re : RE) (s : List Char) (caps : Caps)
    (k : List Char → Caps → Option MRes) : run 0 re s caps k = none := rfl

lemma orElse_eq_some {α : Type} (x : Option α) (f : Unit → Option α) (out : α) :
    x.orElse f = some out ↔ x = some out ∨ (x = none ∧ f () = some out) := by
  cases x <;> simp [Option.orElse]

lemma orElse_of_isSome {α : Type} (x : Option α) (f : Unit → Option α)
    (h : x.isSome) : x.orElse f = x := by
  cases x
  · cases h
  · rfl

lemma isSome_orElse_right {α : Type} (x : Option α) (f : Unit → Option α)
    (h : (f ()).isSome) : (x.orElse f).isSome := by
  cases x <;> simp [Option.orElse, h]



def noGrp1 : RE → Prop
  | RE.grp i a => i ≠ 1 ∧ noGrp1 a
  | RE.cat a b => noGrp1 a ∧ noGrp1 b
  | RE.alt a b => noGrp1 a ∧ noGrp1 b
  | RE.starG a => noGrp1 a
  | RE.starL a => noGrp1 a
  | RE.optG a => noGrp1 a
  | RE.look a => noGrp1 a
  | RE.eps => True
  | RE.pred _ => True
  | RE.eol => True

lemma run_pred_nil (fuel : Nat) (p : Char → Bool) (caps : Caps)
    (k : List Char → Caps → Option MRes) :
    run (fuel + 1) (RE.pred p) [] caps k = none := rfl

lemma run_pred_cons (fuel : Nat) (p : Char → Bool) (c : Char) (rest : List Char)
    (caps : Caps) (k : List Char → Caps → Option MRes) :
    run (fuel + 1) (RE.pred p) (c :: rest) caps k =
      if p c then k rest caps else none := rfl

lemma run_eol_nil (fuel : Nat) (caps : Caps) (k : List Char → Caps → Option MRes) :
    run (fuel + 1) RE.eol [] caps k = k [] caps := rfl

lemma run_eol_cons (fuel : Nat) (c : Char) (rest : List Char) (caps : Caps)
    (k : List Char → Caps → Option MRes) :
    run (fuel + 1) RE.eol (c :: rest) caps k = none := rfl

lemma getCap_cons_ne (i : Nat) (v : List Char) (caps : Caps) (h : i ≠ 1) :
    getCap 1 ((i, v) :: caps) = getCap 1 caps := by
  simp only [getCap, List.find?]
  have : ((i, v).1 == 1) = false := by simpa using h
  rw [this]

lemma run_preserves_cap1 :
    ∀ (fuel : Nat) (re : RE), noGrp1 re →
      ∀ (s : List Char) (caps : Caps) (k : List Char → Caps → Option MRes) (out : MRes),
        (∀ s' caps' o, getCap 1 caps' = getCap 1 caps → k s' caps' = some o →
          getCap 1 o.2 = getCap 1 caps) →
        run fuel re s caps k = some out → getCap 1 out.2 = getCap 1 caps := by
  intro fuel
  induction fuel with
  | zero =>
    intro re _ s caps k out _ h
    rw [run_zero] at h
    cases h
  | succ f ih =>
    intro re hfree s caps k out hk hrun
    cases re with
    | eps => exact hk s caps out rfl (by rwa [run_eps] at hrun)
    | pred p =>
      cases s with
      | nil =>
        rw [run_pred_nil] at hrun
        cases hrun
      | cons c rest =>
        rw [run_pred_cons] at hrun
        by_cases hpc : p c
        · rw [if_pos hpc] at hrun
          exact hk rest caps out rfl hrun
        · rw [if_neg hpc] at hrun
          cases hrun
    | eol =>
      cases s with
      | nil =>
        rw [run_eol_nil] at hrun
        exact hk [] caps out rfl hrun
      | cons c rest =>
        rw [run_eol_cons] at hrun
        cases hrun
    | cat a b =>
      rw [run_cat] at hrun
      refine ih a hfree.1 s caps _ out ?_ hrun
      intro s' caps' o hc hko
      have inner := ih b hfree.2 s' caps' k o ?_ hko
      · rw [hc] at inner
        exact inner
      · intro s'' c'' o' hc' hk'
        rw [hc] at hc'
        rw [hc]
        exact hk s'' c'' o' hc' hk'
    | alt a b =>
      rw [run_alt] at hrun
      rcases (orElse_eq_some _ _ _).mp hrun with hx | ⟨-, hy⟩
      · exact ih a hfree.1 s caps k out hk hx
      · exact ih b hfree.2 s caps k out hk hy
    | starG a =>
      rw [run_starG] at hrun
      rcases (orElse_eq_some _ _ _).mp hrun with hx | ⟨-, hy⟩
      · refine ih a hfree s caps _ out ?_ hx
        intro s' caps' o hc hko
        by_cases hlen : s'.length < s.length
        · rw [if_pos hlen] at hko
          have inner := ih (RE.starG a) hfree s' caps' k o ?_ hko
          · rw [hc] at inner
            exact inner
          · intro s'' c'' o' hc' hk'
            rw [hc] at hc'
            rw [hc]
            exact hk s'' c'' o' hc' hk'
        · rw [if_neg hlen] at hko
          exact hk s' caps' o hc hko
      · exact hk s caps out rfl hy
    | starL a =>
      rw [run_starL] at hrun
      rcases (orElse_eq_some _ _ _).mp hrun with hx | ⟨-, hy⟩
      · exact hk s caps out rfl hx
      · refine ih a hfree s caps _ out ?_ hy
        intro s' caps' o hc hko
        by_cases hlen : s'.length < s.length
        · rw [if_pos hlen] at hko
          have inner := ih (RE.starL a) hfree s' caps' k o ?_ hko
          · rw [hc] at inner
            exact inner
          · intro s'' c'' o' hc' hk'
            rw [hc] at hc'
            rw [hc]
            exact hk s'' c'' o' hc' hk'
        · rw [if_neg hlen] at hko
          cases hko
    | optG a =>
      rw [run_optG] at hrun
      rcases (orElse_eq_some _ _ _).mp hrun with hx | ⟨-, hy⟩
      · exact ih a hfree s caps k out hk hx
      · exact hk s caps out rfl hy
    | look a =>
      rw [run_look] at hrun
      cases hla : run f a s caps (fun s' caps' => some (s', caps')) with
      | none =>
        rw [hla] at hrun
        cases hrun
      | some r =>
        rw [hla] at hrun
        obtain ⟨rs, rc⟩ := r
        have hr2 : getCap 1 rc = getCap 1 caps := by
          have := ih a hfree s caps _ (rs, rc) ?_ hla
          · exact this
          · intro s' c' o hc ho
            obtain rfl : (s', c') = o := by simpa using ho
            exact hc
        exact hk s rc out hr2 hrun
    | grp i a =>
      rw [run_grp] at hrun
      obtain ⟨hi, hfa⟩ := hfree
      refine ih a hfa s caps _ out ?_ hrun
      intro s' caps' o hc hko
      refine hk s' ((i, s.take (s.length - s'.length)) :: caps') o ?_ hko
      rw [getCap_cons_ne _ _ _ hi, hc]



lemma orElse_none {α : Type} (f : Unit → Option α) :
    (none : Option α).orElse f = f () := rfl

lemma run_starG_pred (p : Char → Bool) :
    ∀ (s : List Char) (fuel : Nat) (caps : Caps) (k : List Char → Caps → Option MRes),
      (∀ s' c', (k s' c').isSome) → (s.takeWhile p).length + 2 ≤ fuel →
      run fuel (RE.starG (RE.pred p)) s caps k = k (s.dropWhile p) caps := by
  intro s
  induction s with
  | nil =>
    intro fuel caps k hk hfuel
    obtain ⟨f, rfl⟩ : ∃ f, fuel = f + 1 := ⟨fuel - 1, by omega⟩
    rw [run_starG]
    cases f with
    | zero =>
      rw [run_zero, orElse_none]
      exact rfl
    | succ f' =>
      rw [run_pred_nil, orElse_none]
      exact rfl
  | cons c t ih =>
    intro fuel caps k hk hfuel
    obtain ⟨f, rfl⟩ : ∃ f, fuel = f + 1 := ⟨fuel - 1, by omega⟩
    by_cases hpc : p c
    · have hlen : ((c :: t).takeWhile p).length = (t.takeWhile p).length + 1 := by
        simp [List.takeWhile_cons, hpc]
      obtain ⟨f', rfl⟩ : ∃ f', f = f' + 1 := ⟨f - 1, by omega⟩
      rw [run_starG, run_pred_cons, if_pos hpc]
      have hcond : t.length < (c :: t).length := by simp
      rw [if_pos hcond]
      rw [ih (f' + 1) caps k hk (by omega)]
      rw [orElse_of_isSome _ _ (hk _ _)]
      simp [List.dropWhile_cons, hpc]
    · have hdrop : (c :: t).dropWhile p = c :: t := by
        simp [List.dropWhile_cons, hpc]
      rw [run_starG, hdrop]
      cases f with
      | zero =>
        rw [run_zero, orElse_none]
      | succ f' =>
        rw [run_pred_cons, if_neg hpc, orElse_none]

lemma rest6_total (f : Nat) (s : List Char) (caps : Caps) :
    (run (f + 1 + 1 + 1) (RE.cat (RE.starG wsRE) (RE.optG (RE.grp 2 unit6)))
      s caps matchK).isSome := by
  rw [run_cat, run_starG]
  apply isSome_orElse_right
  show (run (f + 1 + 1) (RE.optG (RE.grp 2 unit6)) s caps matchK).isSome
  rw [run_optG]
  apply isSome_orElse_right
  rfl

lemma take_length_takeWhile (p : Char → Bool) (l : List Char) :
    l.take (l.takeWhile p).length = l.takeWhile p := by
  induction l with
  | nil => rfl
  | cons c t ih =>
    by_cases hpc : p c
    · simp [List.takeWhile_cons, hpc, ih]
    · simp [List.takeWhile_cons, hpc]

lemma pattern6_nil (f : Nat) (caps : Caps) (k : List Char → Caps → Option MRes) :
    run (f + 1 + 1 + 1 + 1) pattern6 [] caps k = none := by
  simp only [pattern6, plusG, digRE, run_cat, run_grp, run_pred_nil]

lemma pattern6_nondigit (f : Nat) (c : Char) (t : List Char) (caps : Caps)
    (k : List Char → Caps → Option MRes) (hc : ¬(Char.isDigit c = true)) :
    run (f + 1 + 1 + 1 + 1) pattern6 (c :: t) caps k = none := by
  simp only [pattern6, plusG, digRE, run_cat, run_grp, run_pred_cons]
  rw [if_neg hc]

lemma noGrp1_rest6 : noGrp1 (RE.cat (RE.starG wsRE) (RE.optG (RE.grp 2 unit6))) := by
  simp [noGrp1, unit6, litCS, chCS]

lemma pattern6_unfold (f : Nat) (c : Char) (t : List Char) (caps : Caps)
    (k : List Char → Caps → Option MRes) :
    run (f + 1 + 1 + 1 + 1) pattern6 (c :: t) caps k =
      if Char.isDigit c then
        run (f + 1) (RE.starG (RE.pred Char.isDigit)) t caps
          (fun s' caps' =>
            run (f + 1 + 1 + 1) (RE.cat (RE.starG wsRE) (RE.optG (RE.grp 2 unit6))) s'
              ((1, (c :: t).take ((c :: t).length - s'.length)) :: caps') k)
      else none := rfl

lemma pattern6_digit_match (f : Nat) (c : Char) (t : List Char)
    (hc : Char.isDigit c = true)
    (hfuel : (t.takeWhile Char.isDigit).length + 2 ≤ f + 1) :
    ∃ out, run (f + 1 + 1 + 1 + 1) pattern6 (c :: t) [] matchK = some out ∧
      getCap 1 out.2 = some ((c :: t).takeWhile Char.isDigit) := by
  rw [pattern6_unfold, if_pos hc]
  have hstar := run_starG_pred Char.isDigit t (f + 1) []
    (fun (s' : List Char) (caps' : Caps) =>
      run (f + 1 + 1 + 1) (RE.cat (RE.starG wsRE) (RE.optG (RE.grp 2 unit6))) s'
        ((1, (c :: t).take ((c :: t).length - s'.length)) :: caps') matchK)
    (fun s' c' => rest6_total f s' _) hfuel
  rw [hstar]
  simp only []
  have hv : (c :: t).take ((c :: t).length - (t.dropWhile Char.isDigit).length) =
      (c :: t).takeWhile Char.isDigit := by
    have h1 : (t.takeWhile Char.isDigit).length + (t.dropWhile Char.isDigit).length
        = t.length := by
      conv_rhs => rw [← List.takeWhile_append_dropWhile (p := Char.isDigit) (l := t)]
      rw [List.length_append]
    have h2 : (c :: t).length - (t.dropWhile Char.isDigit).length =
        ((c :: t).takeWhile Char.isDigit).length := by
      simp only [List.length_cons, List.takeWhile_cons, hc, if_true]
      omega
    rw [h2, take_length_takeWhile]
  rw [hv]
  obtain ⟨out, hout⟩ := Option.isSome_iff_exists.mp
    (rest6_total f (t.dropWhile Char.isDigit) [(1, (c :: t).takeWhile Char.isDigit)])
  refine ⟨out, hout, ?_⟩
  have hpres := run_preserves_cap1 (f + 1 + 1 + 1) _ noGrp1_rest6
    (t.dropWhile Char.isDigit) [(1, (c :: t).takeWhile Char.isDigit)] matchK out
    (fun s' c' o hcc ho => by
      obtain rfl : (s', c') = o := by simpa [matchK] using ho
      exact hcc) hout
  rw [hpres]
  simp [getCap, List.find?]



lemma orElse_some {α : Type} (a : α) (f : Unit → Option α) :
    (some a).orElse f = some a := rfl

lemma firstMatch_nil (fuel : Nat) (re : RE) :
    firstMatch fuel re [] = run fuel re [] [] matchK := rfl

lemma firstMatch_cons (fuel : Nat) (re : RE) (c : Char) (rest : List Char) :
    firstMatch fuel re (c :: rest) =
      (run fuel re (c :: rest) [] matchK).orElse (fun _ => firstMatch fuel re rest) := rfl

/-- The value of the first maximal digit run of `l` (`none` when `l` has no
digit): the reference extractor for the amended C6. -/
def firstDigitRunValue (l : List Char) : Option Int :=
  match l.dropWhile (fun c => !c.isDigit) with
  | [] => none
  | c :: t => some (digitsToInt ((c :: t).takeWhile Char.isDigit))

lemma length_takeWhile_add_dropWhile (p : Char → Bool) (l : List Char) :
    (l.takeWhile p).length + (l.dropWhile p).length = l.length := by
  conv_rhs => rw [← List.takeWhile_append_dropWhile (p := p) (l := l)]
  rw [List.length_append]

lemma firstMatch_pattern6 (l : List Char) :
    ∀ (fuel : Nat), l.length + 8 ≤ fuel →
      (match firstMatch fuel pattern6 l with
       | some r => (getCap 1 r.2).map digitsToInt
       | none => none) = firstDigitRunValue l := by
  induction l with
  | nil =>
    intro fuel hfuel
    obtain ⟨f, rfl⟩ : ∃ f, fuel = f + 1 + 1 + 1 + 1 := ⟨fuel - 4, by omega⟩
    rw [firstMatch_nil, pattern6_nil]
    rfl
  | cons c t ih =>
    intro fuel hfuel
    obtain ⟨f, rfl⟩ : ∃ f, fuel = f + 1 + 1 + 1 + 1 := ⟨fuel - 4, by omega⟩
    rw [firstMatch_cons]
    by_cases hc : Char.isDigit c
    · have htw : (t.takeWhile Char.isDigit).length ≤ t.length := by
        have := length_takeWhile_add_dropWhile Char.isDigit t
        omega
      obtain ⟨out, hout, hcap⟩ := pattern6_digit_match f c t hc (by
        simp only [List.length_cons] at hfuel
        omega)
      rw [hout, orElse_some]
      show (getCap 1 out.2).map digitsToInt = firstDigitRunValue (c :: t)
      rw [hcap]
      have hdrop : (c :: t).dropWhile (fun x => !x.isDigit) = c :: t := by
        simp [List.dropWhile_cons, hc]
      simp [firstDigitRunValue, hdrop]
    · have hnone := pattern6_nondigit f c t [] matchK (by simpa using hc)
      rw [hnone, orElse_none]
      rw [ih _ (by simp only [List.length_cons] at hfuel; omega)]
      have hdrop : (c :: t).dropWhile (fun x => !x.isDigit) =
          t.dropWhile (fun x => !x.isDigit) := by
        simp [List.dropWhile_cons, hc]
      simp [firstDigitRunValue, hdrop]

/-- C6 as amended.  For every input text the single-item fallback reports a
quantity exactly when the text contains a digit, namely the integer value of
the first maximal digit run: the unit token of the quantity regex is optional
(so no unit adjacency is required), and a thousands comma ends the number. -/
theorem fallbackParse_quantity_firstRun (query : String) :
    (fallbackParse query).quantity = firstDigitRunValue (lowerList query.toList) := by
  have h := firstMatch_pattern6 (lowerList query.toList)
    ((lowerList query.toList).length + 10) (by omega)
  simpa [fallbackParse] using h

/-- C6 counterexample, two parts.  In "need 500 mugs" no unit token
("pcs"/"pieces"/"units"/"qty", covered by the stems below) occurs anywhere in
the text, so the claim demands no quantity — yet the fallback reports 500
(the unit group of `/(\d+)\s*(pcs?|pieces?|units?|qty)?/` is optional).  In
"1,500 pcs" the claim's thousands-comma-separated reading demands 1500, but
`(\d+)` stops at the comma and the code reports 1. -/
theorem fallbackParse_quantity_cex :
    (jsIncludes (lowerList "need 500 mugs".toList) "pc".toList = false ∧
     jsIncludes (lowerList "need 500 mugs".toList) "piece".toList = false ∧
     jsIncludes (lowerList "need 500 mugs".toList) "unit".toList = false ∧
     jsIncludes (lowerList "need 500 mugs".toList) "qty".toList = false ∧
     (fallbackParse "need 500 mugs").quantity = some 500) ∧
    ((fallbackParse "1,500 pcs").quantity = some 1 ∧ (1 : Int) ≠ 1500) := by
  decide

/-- C7.  The multi-item fallback on "1,500 pcs t-shirts, 500 pcs hoodies"
segments into exactly the two claimed items (quantities 1500 and 500, no
colors). -/
theorem fallbackParseMulti_two_items :
    fallbackParseMulti "1,500 pcs t-shirts, 500 pcs hoodies" =
      { items :=
          [{ productType := "t-shirts", color := none, quantity := some 1500,
             urgent := false },
           { productType := "hoodies", color := none, quantity := some 500,
             urgent := false }]
        globalUrgent := false } := by
  decide

end EasyPrint
